import Mathlib

/-!
Verification development for the Devanning manifest rendering & scaling engine.

The definitions below are shallow embeddings of the TypeScript source:

* the Page-Scale Calculator `computeScaleForA4` (client/src/lib/manifest-scaling.ts),
  together with the inline scale computation duplicated in `generateManifestHTML`
  (client/src/components/batch-print.tsx);
* the Text-Metrics/Optimal-Fit solver `calculateOptimalFontSize`
  (client/src/lib/text-measurement.ts);
* the Batch Paginator `groupByBl` / `totalPages` / page sequence
  (client/src/components/batch-print.tsx);
* the overflow-style resolution of the three field renderers
  (manifest-field-renderer.tsx, presentational-manifest.tsx, and the
  HTML-string renderer inside batch-print.tsx).

Modelling conventions: JavaScript numbers are modelled by exact rationals `ℚ`
(all operations involved are order/field operations on decimal constants), a
JavaScript number that may be `NaN` is modelled by `Option ℤ` with `none` for
`NaN`, and `parseInt(s, 10)` is modelled by an explicit base-10 prefix parser.
-/

namespace Devanning

/-- Target rendering mode (`TargetMode` in manifest-scaling.ts). -/
inductive TargetMode
  | preview
  | print
  | batch
  | html
  | editor
deriving DecidableEq, Repr

/-- A4 page width in px at 96 dpi: `210 * (96 / 25.4)` (manifest-scaling.ts). -/
def A4_WIDTH_PX : ℚ := 210 * (96 / (254 / 10))

/-- A4 page height in px at 96 dpi: `297 * (96 / 25.4)` (manifest-scaling.ts). -/
def A4_HEIGHT_PX : ℚ := 297 * (96 / (254 / 10))

/-- Top/bottom margin in px: `0 * (96 / 25.4)` (manifest-scaling.ts). -/
def MARGIN_TB_PX : ℚ := 0 * (96 / (254 / 10))

/-- Left/right margin in px: `0 * (96 / 25.4)` (manifest-scaling.ts). -/
def MARGIN_LR_PX : ℚ := 0 * (96 / (254 / 10))

/-- A4 usable width: `A4_WIDTH_PX - MARGIN_LR_PX * 2` (manifest-scaling.ts). -/
def A4_USABLE_WIDTH : ℚ := A4_WIDTH_PX - MARGIN_LR_PX * 2

/-- A4 usable height: `A4_HEIGHT_PX - MARGIN_TB_PX * 2` (manifest-scaling.ts). -/
def A4_USABLE_HEIGHT : ℚ := A4_HEIGHT_PX - MARGIN_TB_PX * 2

/-- The `ScaleOptions` argument object of `computeScaleForA4`.  The three
optional fields model the optional JS parameters; `none` is an omitted
argument. -/
structure ScaleOptions where
  baseWidthPx : ℚ
  baseHeightPx : ℚ
  targetMode : TargetMode
  maxScreenWidth : Option ℚ
  maxScreenHeight : Option ℚ
  maxUpscaleFactor : Option ℚ
deriving DecidableEq, Repr

/-- The `ScaleResult` record `{scaleX, scaleY}`. -/
structure ScaleResult where
  scaleX : ℚ
  scaleY : ℚ
deriving DecidableEq, Repr

/-- JS truthiness of an optional numeric parameter (`if (maxScreenWidth)`):
an omitted argument and `0` are falsy. -/
def truthy : Option ℚ → Bool
  | none => false
  | some m => decide (m ≠ 0)

/-- `computeScaleForA4` (manifest-scaling.ts, lines 81-136), transliterated.
`maxUpscaleFactor = none` models an omitted argument, defaulted to `6.0`. -/
def computeScaleForA4 (options : ScaleOptions) : ScaleResult :=
  let maxUpscaleFactor := options.maxUpscaleFactor.getD 6
  if options.targetMode = TargetMode.print ∨ options.targetMode = TargetMode.batch ∨
      options.targetMode = TargetMode.html then
    let scaleX0 := A4_USABLE_WIDTH / options.baseWidthPx
    let scaleY0 := A4_USABLE_HEIGHT / options.baseHeightPx
    let scaleX1 := min scaleX0 maxUpscaleFactor
    let scaleY1 := min scaleY0 maxUpscaleFactor
    let scaleX2 := max scaleX1 (3 / 10)
    let scaleY2 := max scaleY1 (3 / 10)
    ⟨scaleX2, scaleY2⟩
  else if options.targetMode = TargetMode.preview ∨ options.targetMode = TargetMode.editor then
    let scaleByWidth := A4_USABLE_WIDTH / options.baseWidthPx
    let scaleByHeight := A4_USABLE_HEIGHT / options.baseHeightPx
    let scale0 := min scaleByWidth scaleByHeight
    let scale1 := if truthy options.maxScreenWidth then
        min scale0 (options.maxScreenWidth.getD 0 / options.baseWidthPx)
      else scale0
    let scale2 := if truthy options.maxScreenHeight then
        min scale1 (options.maxScreenHeight.getD 0 / options.baseHeightPx)
      else scale1
    let scale3 := min scale2 1
    let scale4 := max scale3 (3 / 10)
    ⟨scale4, scale4⟩
  else
    ⟨1, 1⟩

/-- The scale pair computed inline by `generateManifestHTML`
(batch-print.tsx, lines 87-102): hard-coded decimal constants `793.7` and
`1122.5`, capped at `6.0` and floored at `0.3` per axis. -/
def generateManifestHTMLScale (imageWidth imageHeight : ℚ) : ScaleResult :=
  let a4WidthPx : ℚ := 7937 / 10
  let a4HeightPx : ℚ := 11225 / 10
  let scaleX0 := a4WidthPx / imageWidth
  let scaleY0 := a4HeightPx / imageHeight
  let scaleX1 := min scaleX0 6
  let scaleY1 := min scaleY0 6
  let scaleX2 := max scaleX1 (3 / 10)
  let scaleY2 := max scaleY1 (3 / 10)
  ⟨scaleX2, scaleY2⟩

/-- One optional screen-limit bound of the preview/editor policy: when the
limit is supplied, the running scale is further bounded by `limit / dim`. -/
def screenBound (s : ℚ) (limit : Option ℚ) (dim : ℚ) : ℚ :=
  match limit with
  | none => s
  | some m => min s (m / dim)

/-- State of the binary search in `calculateOptimalFontSize`:
`(minSize, maxSize, optimalSize)`. -/
def FitState : Type := ℚ × ℚ × ℚ

/-- One iteration of the font-size binary search (text-measurement.ts,
lines 81-91).  `measure` is the Text Metrics Provider specialised to the
text and weight of this call (`measureTextWidth text · weight`), a black
box to the solver; `bound` is `targetWidth * 0.98`. -/
def fitStep (measure : ℚ → ℚ) (bound : ℚ) : FitState → FitState :=
  fun st =>
    let minSize := st.1
    let maxSize := st.2.1
    let optimalSize := st.2.2
    let midSize := (minSize + maxSize) / 2
    if measure midSize ≤ bound then (midSize, maxSize, midSize)
    else (minSize, midSize, optimalSize)

/-- The width-fit size: 20 binary-search iterations from
`minSize = 1, maxSize = 1000, optimalSize = minSize`, accepting sizes whose
measured width is at most `targetWidth * 0.98`. -/
def widthFitSize (measure : ℚ → ℚ) (targetWidth : ℚ) : ℚ :=
  ((fitStep measure (targetWidth * (98 / 100)))^[20] (1, 1000, 1)).2.2

/-- Result record of `calculateOptimalFontSize`. -/
structure FitResult where
  fontSize : ℚ
  scaleX : ℚ
  scaleY : ℚ
deriving DecidableEq, Repr

/-- `calculateOptimalFontSize` (text-measurement.ts, lines 61-109).
The call `measureTextWidth(text, size, weight)` is abstracted into the
function `measure`; the solver itself only inspects `text` through the JS
guard `!text || text.length === 0`, which for a string argument is exactly
`text = ""`. -/
def calculateOptimalFontSize (measure : ℚ → ℚ) (text : String)
    (targetWidth targetHeight : ℚ) (stretchHeight : Bool) : FitResult :=
  if text = "" then ⟨12, 1, 1⟩
  else
    let optimalSize := widthFitSize measure targetWidth
    if stretchHeight then
      let scaleY := (targetHeight * (98 / 100)) / optimalSize
      ⟨optimalSize, 1, scaleY⟩
    else
      let maxFontSizeByHeight := targetHeight * (95 / 100)
      let finalSize := min optimalSize maxFontSizeByHeight
      ⟨finalSize, 1, 1⟩

/-- The fields of a `ManifestData` record read by the batch paginator.
`maesu` stands for the Korean-named field `매수` (per-unit copy multiplier);
an absent string value is modelled by `""` (both are JS-falsy). -/
structure ManifestRecord where
  blNo : String
  itemNo : String
  plt : String
  maesu : String
deriving DecidableEq, Repr

/-- JS `a || b` on strings: the empty string is falsy. -/
def jsOr (s fallback : String) : String :=
  if s = "" then fallback else s

/-- The longest prefix of decimal digits. -/
def leadingDigits (cs : List Char) : List Char :=
  cs.takeWhile (fun c => c.isDigit)

/-- Numeric value of a digit string. -/
def digitsVal (cs : List Char) : ℕ :=
  cs.foldl (fun n c => 10 * n + (c.toNat - 48)) 0

/-- The digit-prefix parse: `none` when no leading digit exists. -/
def digitsOpt (cs : List Char) : Option ℕ :=
  let ds := leadingDigits cs
  if ds.isEmpty then none else some (digitsVal ds)

/-- JS `parseInt(s, 10)`: skip leading whitespace, optional sign, then the
longest digit prefix; `NaN` (no digit) is modelled by `none`. -/
def parseIntJS (s : String) : Option ℤ :=
  let cs := s.toList.dropWhile (fun c => c.isWhitespace)
  match cs with
  | '-' :: rest => (digitsOpt rest).map (fun n => -(n : ℤ))
  | '+' :: rest => (digitsOpt rest).map (fun n => (n : ℤ))
  | _ => (digitsOpt cs).map (fun n => (n : ℤ))

/-- JS addition on numbers that may be `NaN` (`none`). -/
def jsAdd : Option ℤ → Option ℤ → Option ℤ
  | some a, some b => some (a + b)
  | _, _ => none

/-- JS multiplication on numbers that may be `NaN` (`none`). -/
def jsMul : Option ℤ → Option ℤ → Option ℤ
  | some a, some b => some (a * b)
  | _, _ => none

/-- `parseInt(data.plt || "0", 10)` (batch-print.tsx, line 41). -/
def pltQtyOf (r : ManifestRecord) : Option ℤ :=
  parseIntJS (jsOr r.plt "0")

/-- `parseInt(data.매수 || "1", 10)` (batch-print.tsx, line 42). -/
def copyCntOf (r : ManifestRecord) : Option ℤ :=
  parseIntJS (jsOr r.maesu "1")

/-- The per-item page multiplicity `pltQty * copyCount` contributed to the
group and total page counts. -/
def copyCountOf (r : ManifestRecord) : Option ℤ :=
  jsMul (pltQtyOf r) (copyCntOf r)

/-- The grouping key: `data.blNo || "UNKNOWN"` (batch-print.tsx, line 39). -/
def keyOf (r : ManifestRecord) : String :=
  jsOr r.blNo "UNKNOWN"

/-- One entry of `BlGroup.items` (batch-print.tsx, lines 19-25); the
`template` member is omitted as it is never read by the paginator logic. -/
structure BlItem where
  itemNo : String
  pltQty : Option ℤ
  copyCount : Option ℤ
  data : ManifestRecord
deriving DecidableEq, Repr

/-- A BL group (batch-print.tsx, lines 17-28). -/
structure BlGroup where
  blNo : String
  items : List BlItem
  totalManifests : ℕ
  totalPages : Option ℤ
deriving DecidableEq, Repr

/-- The item pushed for a record (batch-print.tsx, line 54). -/
def mkItem (r : ManifestRecord) : BlItem :=
  ⟨jsOr r.itemNo "UNKNOWN", pltQtyOf r, copyCntOf r, r⟩

/-- The loop body's effect on an existing group (batch-print.tsx,
lines 53-56): push the item, bump `totalManifests`, add
`pltQty * copyCount` to `totalPages`. -/
def addToGroup (g : BlGroup) (r : ManifestRecord) : BlGroup :=
  ⟨g.blNo, g.items ++ [mkItem r], g.totalManifests + 1,
    jsAdd g.totalPages (jsMul (pltQtyOf r) (copyCntOf r))⟩

/-- Process one record into the insertion-ordered group list, modelling the
JS `Map` of `groupByBl`: update the (unique) group with the record's key, or
append a fresh group at the end. -/
def insertItem : List BlGroup → ManifestRecord → List BlGroup
  | [], r => [⟨keyOf r, [mkItem r], 0 + 1,
      jsAdd (some 0) (jsMul (pltQtyOf r) (copyCntOf r))⟩]
  | g :: gs, r =>
      if g.blNo = keyOf r then addToGroup g r :: gs
      else g :: insertItem gs r

/-- The `Map`-valued grouping pass of `groupByBl`, before sorting. -/
def groupByBlUnsorted (rs : List ManifestRecord) : List BlGroup :=
  rs.foldl insertItem []

/-- Lexicographic comparison of char lists by code point, modelling the
ascending order produced by `localeCompare` on the key strings. -/
def charsLe : List Char → List Char → Bool
  | [], _ => true
  | _ :: _, [] => false
  | a :: as, b :: bs =>
      if a.toNat < b.toNat then true
      else if b.toNat < a.toNat then false
      else charsLe as bs

/-- String comparison used for the group sort. -/
def strLe (a b : String) : Bool :=
  charsLe a.toList b.toList

/-- Ordering of groups by key, `(a, b) => a.blNo.localeCompare(b.blNo)`. -/
def blGroupLe (a b : BlGroup) : Prop :=
  strLe a.blNo b.blNo = true

instance : DecidableRel blGroupLe :=
  fun a b => inferInstanceAs (Decidable (strLe a.blNo b.blNo = true))

/-- `groupByBl` (batch-print.tsx, lines 35-60): group, then sort ascending
by `blNo`.  JS `Array.prototype.sort` is a stable sort; as the group keys
are pairwise distinct, any stable sort (here: insertion sort) produces the
same list. -/
def groupByBl (rs : List ManifestRecord) : List BlGroup :=
  List.insertionSort blGroupLe (groupByBlUnsorted rs)

/-- `blGroups.reduce((sum, g) => sum + g.totalPages, 0)`. -/
def sumGroupPages (gs : List BlGroup) : Option ℤ :=
  gs.foldl (fun s g => jsAdd s g.totalPages) (some 0)

/-- The declared total page count (batch-print.tsx, line 65):
`1 + blGroups.length + Σ g.totalPages + 1`.  This single value is the one
passed to the start page, the end page and the exported HTML. -/
def totalPagesOf (rs : List ManifestRecord) : Option ℤ :=
  let blGroups := groupByBl rs
  jsAdd (jsAdd (jsAdd (some 1) (some (blGroups.length : ℤ)))
    (sumGroupPages blGroups)) (some 1)

/-- Number of pages emitted by `for (let i = 0; i < copies; i++)` and
`Array.from({length: copies})`: `NaN` and negative counts yield zero. -/
def copiesNat : Option ℤ → ℕ
  | none => 0
  | some n => n.toNat

/-- A page of the batch document. -/
inductive Page
  | startSummary
  | separator (blNo : String)
  | manifest (data : ManifestRecord)
  | endSummary
deriving DecidableEq, Repr

/-- The pages contributed by one group: its separator page, then each item's
manifest repeated `pltQty * copyCount` times, in declaration order
(batch-print.tsx, lines 283-331 and 511-535). -/
def groupPages (g : BlGroup) : List Page :=
  Page.separator g.blNo ::
    g.items.flatMap (fun it =>
      List.replicate (copiesNat (jsMul it.pltQty it.copyCount)) (Page.manifest it.data))

/-- The emitted page sequence: start summary, the groups' pages, end summary
(batch-print.tsx, lines 236-358 and 500-545). -/
def pagesOf (rs : List ManifestRecord) : List Page :=
  Page.startSummary :: (groupByBl rs).flatMap groupPages ++ [Page.endSummary]

/-- The number of physical pages one item contributes:
`pltQty * copyCount` interpreted as a JS loop bound. -/
def itemCopies (it : BlItem) : ℕ :=
  copiesNat (jsMul it.pltQty it.copyCount)

/-- The number of manifest pages a group's items contribute. -/
def groupCopies (g : BlGroup) : ℕ :=
  (g.items.map itemCopies).sum

/-- The number of manifest pages of a whole group list. -/
def sumCopies (gs : List BlGroup) : ℕ :=
  (gs.map groupCopies).sum

/-- The JS fold `rs.reduce((s, r) => s + copyCountOf r, 0)`. -/
def jsSumCopy (rs : List ManifestRecord) : Option ℤ :=
  rs.foldl (fun s r => jsAdd s (copyCountOf r)) (some 0)

/-- Lookup of the group with a given key (first match). -/
def findGroup (gs : List BlGroup) (k : String) : Option BlGroup :=
  gs.find? (fun g => g.blNo == k)

/-- The items of the group with key `k`, or `[]` when no such group exists. -/
def groupItemsOf (gs : List BlGroup) (k : String) : List BlItem :=
  ((findGroup gs k).map (fun g => g.items)).getD []

/-- JS truthiness of `field.maxLines && field.maxLines > 0` for a
natural-number `maxLines`. -/
def maxLinesActive : Option ℕ → Bool
  | none => false
  | some n => decide (0 < n)

/-- The members of a template field read by the overflow-style resolution. -/
structure TemplateField where
  overflow : String
  wordWrap : Bool
  maxLines : Option ℕ
  stretchHeight : Bool
  height : ℚ
deriving DecidableEq, Repr

/-- The resolved overflow-related style of a field's text element.  Only the
properties the three renderers write are modelled; `none` is an unset
property and, for `overflowHidden`, `false` conflates `visible` with unset
(the claims only distinguish hidden from non-hidden). -/
structure OverflowStyle where
  display : Option String
  lineClamp : Option ℤ
  overflowHidden : Bool
  textOverflow : Option String
  whiteSpace : Option String
  breakWord : Bool
deriving DecidableEq, Repr

/-- The style object before any overflow handling. -/
def defaultOverflowStyle : OverflowStyle :=
  ⟨none, none, false, none, none, false⟩

/-- The overflow resolution of `ManifestFieldRenderer`
(manifest-field-renderer.tsx, lines 78-121): a single if/else chain in which
an active `maxLines` takes the first branch.  `fontSize` is the fitted font
size used by the estimated-line-count computation of the
ellipsis-with-wordWrap branch. -/
def rendererStyle (f : TemplateField) (fontSize : ℚ) : OverflowStyle :=
  if maxLinesActive f.maxLines then
    { defaultOverflowStyle with
        display := some "-webkit-box", lineClamp := some ((f.maxLines.getD 0 : ℤ)),
        overflowHidden := true, whiteSpace := some "normal", breakWord := f.wordWrap }
  else if f.overflow = "ellipsis" then
    if f.wordWrap = false then
      ⟨none, none, true, some "ellipsis", some "nowrap", false⟩
    else
      let estimatedLineHeight := fontSize * (12 / 10)
      let maxLines := max 1 ⌊f.height / estimatedLineHeight⌋
      ⟨some "-webkit-box", some maxLines, true, none, some "normal", true⟩
  else if f.overflow = "hidden" then
    if f.wordWrap then ⟨none, none, true, none, some "normal", true⟩
    else ⟨none, none, true, none, some "nowrap", false⟩
  else
    if f.wordWrap then ⟨none, none, false, none, some "normal", true⟩
    else ⟨none, none, false, none, some "nowrap", false⟩

/-- The overflow resolution of `PresentationalManifest`
(presentational-manifest.tsx, lines 61-87): four independent mutations of
one style object; a later write to the same property wins. -/
def presentationalStyle (f : TemplateField) : OverflowStyle :=
  let s0 := defaultOverflowStyle
  let s1 :=
    if f.overflow = "hidden" ∨ f.overflow = "ellipsis" then
      let t := { s0 with overflowHidden := true }
      if f.overflow = "ellipsis" then
        { t with textOverflow := some "ellipsis", whiteSpace := some "nowrap" }
      else t
    else s0
  let s2 :=
    if maxLinesActive f.maxLines then
      { s1 with
          display := some "-webkit-box",
          lineClamp := some ((f.maxLines.getD 0 : ℤ)),
          overflowHidden := true }
    else s1
  let s3 :=
    if f.wordWrap then { s2 with breakWord := true, whiteSpace := some "normal" }
    else s2
  if f.wordWrap = false ∧ maxLinesActive f.maxLines = false ∧ f.overflow ≠ "ellipsis" then
    { s3 with whiteSpace := some "nowrap" }
  else s3

/-- The overflow resolution of the HTML-string renderer in
`generateManifestHTML` (batch-print.tsx, lines 114-134 and 151-162): CSS
declarations appended to one style string; a later declaration of the same
property wins.  It differs from `presentationalStyle` in the final
default-nowrap condition (no ellipsis exclusion) and in the trailing
`stretchHeight` handling of the container overflow. -/
def batchHtmlStyle (f : TemplateField) : OverflowStyle :=
  let s0 := defaultOverflowStyle
  let s1 :=
    if f.overflow = "hidden" ∨ f.overflow = "ellipsis" then
      let t := { s0 with overflowHidden := true }
      if f.overflow = "ellipsis" then
        { t with textOverflow := some "ellipsis", whiteSpace := some "nowrap" }
      else t
    else s0
  let s2 :=
    if maxLinesActive f.maxLines then
      { s1 with
          display := some "-webkit-box",
          lineClamp := some ((f.maxLines.getD 0 : ℤ)),
          overflowHidden := true }
    else s1
  let s3 :=
    if f.wordWrap then { s2 with breakWord := true, whiteSpace := some "normal" }
    else s2
  let s4 :=
    if f.wordWrap = false ∧ maxLinesActive f.maxLines = false then
      { s3 with whiteSpace := some "nowrap" }
    else s3
  if f.stretchHeight then { s4 with overflowHidden := true }
  else if f.wordWrap = false ∧ maxLinesActive f.maxLines = false then
    { s4 with overflowHidden := false }
  else s4

/-! ### Helper lemmas -/

/-- Basic invariants of the font-size binary search after `n` iterations:
the recorded optimal size equals the lower bound, the lower bound stays at
least `1` and below the upper bound, the bracket width is `999 / 2^n`, and
the optimal size either fits or is the untouched initial value `1`. -/
theorem fit_basic (measure : ℚ → ℚ) (bound : ℚ) :
    ∀ n : ℕ,
      ((fitStep measure bound)^[n] (1, 1000, 1)).2.2 =
          ((fitStep measure bound)^[n] (1, 1000, 1)).1 ∧
      1 ≤ ((fitStep measure bound)^[n] (1, 1000, 1)).1 ∧
      ((fitStep measure bound)^[n] (1, 1000, 1)).1 ≤
          ((fitStep measure bound)^[n] (1, 1000, 1)).2.1 ∧
      ((fitStep measure bound)^[n] (1, 1000, 1)).2.1 =
          ((fitStep measure bound)^[n] (1, 1000, 1)).1 + 999 / 2 ^ n ∧
      (measure (((fitStep measure bound)^[n] (1, 1000, 1)).1) ≤ bound ∨
        ((fitStep measure bound)^[n] (1, 1000, 1)).1 = 1) := by
  intro n
  induction n with
  | zero =>
      refine ⟨rfl, le_refl _, by norm_num, by norm_num, Or.inr rfl⟩
  | succ n ih =>
      rw [Function.iterate_succ_apply']
      rcases hst : (fitStep measure bound)^[n] (1, 1000, 1) with ⟨lo, hi, opt⟩
      rw [hst] at ih
      dsimp only at ih
      obtain ⟨hopt, h1, hle, hgap, hfit⟩ := ih
      have hpow : (999 : ℚ) / 2 ^ (n + 1) = 999 / 2 ^ n / 2 := by
        rw [pow_succ]
        ring
      simp only [fitStep]
      by_cases hmid : measure ((lo + hi) / 2) ≤ bound
      · rw [if_pos hmid]
        dsimp only
        refine ⟨rfl, by linarith, by linarith, ?_, Or.inl hmid⟩
        rw [hpow, hgap]
        ring
      · rw [if_neg hmid]
        dsimp only
        refine ⟨hopt, h1, by linarith, ?_, hfit⟩
        rw [hpow, hgap]
        ring

/-- For a monotone measure, every size in `[1, 1000]` that fits the bound
stays below the search's upper bracket. -/
theorem fit_upper (measure : ℚ → ℚ) (bound : ℚ) (hmono : Monotone measure) :
    ∀ n : ℕ, ∀ s : ℚ, 1 ≤ s → s ≤ 1000 → measure s ≤ bound →
      s ≤ ((fitStep measure bound)^[n] (1, 1000, 1)).2.1 := by
  intro n
  induction n with
  | zero =>
      intro s _ hs _
      simpa using hs
  | succ n ih =>
      intro s hs1 hs2 hs3
      rw [Function.iterate_succ_apply']
      rcases hst : (fitStep measure bound)^[n] (1, 1000, 1) with ⟨lo, hi, opt⟩
      have hhi := ih s hs1 hs2 hs3
      rw [hst] at hhi
      dsimp only at hhi
      simp only [fitStep]
      by_cases hmid : measure ((lo + hi) / 2) ≤ bound
      · rw [if_pos hmid]
        exact hhi
      · rw [if_neg hmid]
        dsimp only
        by_contra hcon
        push_neg at hcon
        exact hmid (le_trans (hmono (le_of_lt hcon)) hs3)

/-- When no size of at least `1` fits the bound, the search never moves:
the lower bound and the optimal size stay `1`. -/
theorem fit_no_fit (measure : ℚ → ℚ) (bound : ℚ)
    (h : ∀ s : ℚ, 1 ≤ s → ¬ measure s ≤ bound) :
    ∀ n : ℕ,
      ((fitStep measure bound)^[n] (1, 1000, 1)).1 = 1 ∧
      1 ≤ ((fitStep measure bound)^[n] (1, 1000, 1)).2.1 ∧
      ((fitStep measure bound)^[n] (1, 1000, 1)).2.2 = 1 := by
  intro n
  induction n with
  | zero =>
      exact ⟨rfl, by norm_num, rfl⟩
  | succ n ih =>
      rw [Function.iterate_succ_apply']
      rcases hst : (fitStep measure bound)^[n] (1, 1000, 1) with ⟨lo, hi, opt⟩
      rw [hst] at ih
      dsimp only at ih
      obtain ⟨hlo, hhi, hopt⟩ := ih
      have hmid1 : (1 : ℚ) ≤ (lo + hi) / 2 := by
        rw [hlo]
        linarith
      simp only [fitStep]
      rw [if_neg (h _ hmid1)]
      exact ⟨hlo, hmid1, hopt⟩

/-- The width-fit size is always at least `1`. -/
theorem wfs_ge_one (measure : ℚ → ℚ) (W : ℚ) : 1 ≤ widthFitSize measure W := by
  obtain ⟨hopt, h1, -, -, -⟩ := fit_basic measure (W * (98 / 100)) 20
  unfold widthFitSize
  rw [hopt]
  exact h1

/-- The width-fit size either fits the 2%-margin bound or is `1`. -/
theorem wfs_fits_or_one (measure : ℚ → ℚ) (W : ℚ) :
    measure (widthFitSize measure W) ≤ W * (98 / 100) ∨
      widthFitSize measure W = 1 := by
  obtain ⟨hopt, -, -, -, hfit⟩ := fit_basic measure (W * (98 / 100)) 20
  unfold widthFitSize
  rw [hopt]
  exact hfit

/-- For a monotone measure, every fitting size in `[1, 1000]` is at most
`999 / 2^20` above the width-fit size. -/
theorem wfs_near_sup (measure : ℚ → ℚ) (W : ℚ) (hmono : Monotone measure) :
    ∀ s : ℚ, 1 ≤ s → s ≤ 1000 → measure s ≤ W * (98 / 100) →
      s ≤ widthFitSize measure W + 999 / 2 ^ 20 := by
  intro s hs1 hs2 hs3
  obtain ⟨hopt, -, -, hgap, -⟩ := fit_basic measure (W * (98 / 100)) 20
  have := fit_upper measure (W * (98 / 100)) hmono 20 s hs1 hs2 hs3
  unfold widthFitSize
  rw [hopt]
  rw [hgap] at this
  exact this

/-- When no size of at least `1` fits, the width-fit size is `1`. -/
theorem wfs_no_fit (measure : ℚ → ℚ) (W : ℚ)
    (h : ∀ s : ℚ, 1 ≤ s → ¬ measure s ≤ W * (98 / 100)) :
    widthFitSize measure W = 1 := by
  obtain ⟨-, -, hopt⟩ := fit_no_fit measure (W * (98 / 100)) h 20
  exact hopt

/-- A value capped at `c ≤ 6` and floored at `0.3` lies in `[0.3, 6]`. -/
theorem clamp_mem (x c : ℚ) (hc : c ≤ 6) :
    3 / 10 ≤ max (min x c) (3 / 10) ∧ max (min x c) (3 / 10) ≤ 6 :=
  ⟨le_max_right _ _, max_le (le_trans (min_le_right _ _) hc) (by norm_num)⟩

/-! ### Batch Paginator helper definitions and lemmas -/

theorem jsAdd_zero_left (x : Option ℤ) : jsAdd (some 0) x = x := by
  cases x <;> simp [jsAdd]

theorem jsAdd_zero_right (x : Option ℤ) : jsAdd x (some 0) = x := by
  cases x <;> simp [jsAdd]

theorem jsAdd_assoc (a b c : Option ℤ) :
    jsAdd (jsAdd a b) c = jsAdd a (jsAdd b c) := by
  cases a <;> cases b <;> cases c <;> simp [jsAdd, add_assoc]

theorem jsAdd_comm (a b : Option ℤ) : jsAdd a b = jsAdd b a := by
  cases a <;> cases b <;> simp [jsAdd, add_comm]

theorem jsAdd_right_comm (a b c : Option ℤ) :
    jsAdd (jsAdd a b) c = jsAdd (jsAdd a c) b := by
  rw [jsAdd_assoc, jsAdd_comm b c, ← jsAdd_assoc]

/-- Pulling the initial accumulator out of a `jsAdd` fold. -/
theorem foldl_jsAdd_init {α : Type} (f : α → Option ℤ) (l : List α)
    (i : Option ℤ) :
    l.foldl (fun s x => jsAdd s (f x)) i =
      jsAdd i (l.foldl (fun s x => jsAdd s (f x)) (some 0)) := by
  induction l generalizing i with
  | nil => simp [jsAdd_zero_right]
  | cons a l ih =>
      simp only [List.foldl_cons]
      rw [ih, ih (jsAdd (some 0) (f a)), jsAdd_zero_left, ← jsAdd_assoc]

/-- A `jsAdd` fold is invariant under permutation of the list. -/
theorem foldl_jsAdd_perm {α : Type} (f : α → Option ℤ) {l₁ l₂ : List α}
    (h : l₁.Perm l₂) :
    l₁.foldl (fun s x => jsAdd s (f x)) (some 0) =
      l₂.foldl (fun s x => jsAdd s (f x)) (some 0) := by
  induction h with
  | nil => rfl
  | cons a h ih =>
      simp only [List.foldl_cons]
      rw [foldl_jsAdd_init, ih, ← foldl_jsAdd_init]
  | swap a b l =>
      simp only [List.foldl_cons]
      rw [jsAdd_right_comm]
  | trans h₁ h₂ ih₁ ih₂ =>
      exact ih₁.trans ih₂

/-- Sums of `fun x => 1 + f x` split into a length and a sum. -/
theorem sum_map_one_add {α : Type} (l : List α) (f : α → ℕ) :
    (l.map (fun x => 1 + f x)).sum = l.length + (l.map f).sum := by
  induction l with
  | nil => rfl
  | cons a l ih =>
      simp only [List.map_cons, List.sum_cons, List.length_cons, ih]
      omega

theorem charsLe_total : ∀ as bs : List Char,
    charsLe as bs = true ∨ charsLe bs as = true := by
  intro as
  induction as with
  | nil =>
      intro bs
      exact Or.inl rfl
  | cons a as ih =>
      intro bs
      cases bs with
      | nil => exact Or.inr rfl
      | cons b bs =>
          simp only [charsLe]
          by_cases h1 : a.toNat < b.toNat
          · left
            rw [if_pos h1]
          · by_cases h2 : b.toNat < a.toNat
            · right
              rw [if_pos h2]
            · rw [if_neg h1, if_neg h2, if_neg h2, if_neg h1]
              exact ih bs

theorem charsLe_trans : ∀ as bs cs : List Char,
    charsLe as bs = true → charsLe bs cs = true → charsLe as cs = true := by
  intro as
  induction as with
  | nil =>
      intro bs cs _ _
      rfl
  | cons a as ih =>
      intro bs cs hab hbc
      cases bs with
      | nil => simp [charsLe] at hab
      | cons b bs =>
          cases cs with
          | nil => simp [charsLe] at hbc
          | cons c cs =>
              simp only [charsLe] at hab hbc ⊢
              by_cases hab1 : a.toNat < b.toNat
              · by_cases hbc1 : b.toNat < c.toNat
                · rw [if_pos (lt_trans hab1 hbc1)]
                · by_cases hbc2 : c.toNat < b.toNat
                  · rw [if_neg hbc1, if_pos hbc2] at hbc
                    exact absurd hbc (by simp)
                  · have hEq : b.toNat = c.toNat := by omega
                    rw [if_pos (hEq ▸ hab1)]
              · by_cases hab2 : b.toNat < a.toNat
                · rw [if_neg hab1, if_pos hab2] at hab
                  exact absurd hab (by simp)
                · have hEqab : a.toNat = b.toNat := by omega
                  rw [if_neg hab1, if_neg hab2] at hab
                  by_cases hbc1 : b.toNat < c.toNat
                  · rw [if_pos (hEqab ▸ hbc1)]
                  · by_cases hbc2 : c.toNat < b.toNat
                    · rw [if_neg hbc1, if_pos hbc2] at hbc
                      exact absurd hbc (by simp)
                    · have hEqbc : b.toNat = c.toNat := by omega
                      rw [if_neg hbc1, if_neg hbc2] at hbc
                      have h1 : ¬ a.toNat < c.toNat := by omega
                      have h2 : ¬ c.toNat < a.toNat := by omega
                      rw [if_neg h1, if_neg h2]
                      exact ih bs cs hab hbc

instance : IsTrans BlGroup blGroupLe :=
  ⟨fun _ _ _ hab hbc => charsLe_trans _ _ _ hab hbc⟩

instance : IsTotal BlGroup blGroupLe :=
  ⟨fun a b => charsLe_total a.blNo.toList b.blNo.toList⟩

/-- Inserting a record adds its `pltQty * copyCount` to the total of the
groups' declared page counts. -/
theorem sumGroupPages_insertItem (gs : List BlGroup) (r : ManifestRecord) :
    sumGroupPages (insertItem gs r) = jsAdd (sumGroupPages gs) (copyCountOf r) := by
  induction gs with
  | nil =>
      simp [insertItem, sumGroupPages, copyCountOf, jsAdd_zero_left]
  | cons g gs ih =>
      by_cases hk : g.blNo = keyOf r
      · simp only [insertItem, if_pos hk, sumGroupPages, List.foldl_cons, addToGroup]
        rw [foldl_jsAdd_init (fun g : BlGroup => g.totalPages),
          foldl_jsAdd_init (fun g : BlGroup => g.totalPages) gs
            (jsAdd (some 0) g.totalPages)]
        rw [jsAdd_zero_left, jsAdd_zero_left, jsAdd_right_comm, copyCountOf]
      · simp only [insertItem, if_neg hk, sumGroupPages, List.foldl_cons]
        rw [foldl_jsAdd_init (fun g : BlGroup => g.totalPages),
          foldl_jsAdd_init (fun g : BlGroup => g.totalPages) gs
            (jsAdd (some 0) g.totalPages)]
        simp only [jsAdd_zero_left]
        have hins := ih
        simp only [sumGroupPages] at hins
        rw [hins, jsAdd_assoc]

/-- The grouping fold accumulates exactly the records' copy counts. -/
theorem sumGroupPages_foldl (rs : List ManifestRecord) :
    ∀ gs : List BlGroup,
      sumGroupPages (rs.foldl insertItem gs) =
        jsAdd (sumGroupPages gs) (jsSumCopy rs) := by
  induction rs with
  | nil =>
      intro gs
      simp [jsSumCopy, jsAdd_zero_right]
  | cons r rs ih =>
      intro gs
      simp only [List.foldl_cons, jsSumCopy]
      rw [ih (insertItem gs r), sumGroupPages_insertItem,
        foldl_jsAdd_init (fun r : ManifestRecord => copyCountOf r),
        jsAdd_zero_left, jsAdd_assoc]
      simp only [jsSumCopy]

/-- With every copy count a number, the JS sum of copy counts is the sum of
their values. -/
theorem jsSumCopy_eq_sum (rs : List ManifestRecord)
    (h : ∀ r ∈ rs, (copyCountOf r).isSome) :
    jsSumCopy rs =
      some ((rs.map (fun r => (copyCountOf r).getD 0)).sum) := by
  induction rs with
  | nil => rfl
  | cons r rs ih =>
      obtain ⟨v, hv⟩ :=
        Option.isSome_iff_exists.mp (h r (List.mem_cons_self r rs))
      simp only [jsSumCopy, List.foldl_cons]
      rw [foldl_jsAdd_init (fun r : ManifestRecord => copyCountOf r), jsAdd_zero_left]
      have ihr := ih (fun x hx => h x (List.mem_cons_of_mem _ hx))
      simp only [jsSumCopy] at ihr
      rw [ihr]
      simp [hv, jsAdd]

/-- Inserting a record adds its page multiplicity to the emitted manifest
page count. -/
theorem sumCopies_insertItem (gs : List BlGroup) (r : ManifestRecord) :
    sumCopies (insertItem gs r) = sumCopies gs + copiesNat (copyCountOf r) := by
  induction gs with
  | nil =>
      simp [insertItem, sumCopies, groupCopies, itemCopies, mkItem, copyCountOf]
  | cons g gs ih =>
      by_cases hk : g.blNo = keyOf r
      · simp only [insertItem, if_pos hk, sumCopies, groupCopies, addToGroup,
          List.map_cons, List.sum_cons, List.map_append, List.sum_append,
          List.map_nil, List.sum_nil]
        simp [itemCopies, mkItem, copyCountOf]
        omega
      · simp only [insertItem, if_neg hk, sumCopies, List.map_cons,
          List.sum_cons]
        have := ih
        simp only [sumCopies] at this
        omega

/-- The grouping fold accumulates exactly the records' page multiplicities. -/
theorem sumCopies_foldl (rs : List ManifestRecord) :
    ∀ gs : List BlGroup,
      sumCopies (rs.foldl insertItem gs) =
        sumCopies gs + (rs.map (fun r => copiesNat (copyCountOf r))).sum := by
  induction rs with
  | nil =>
      intro gs
      simp
  | cons r rs ih =>
      intro gs
      simp only [List.foldl_cons, List.map_cons, List.sum_cons]
      rw [ih (insertItem gs r), sumCopies_insertItem]
      omega

/-- The keys after an insertion: unchanged when the record's key is already
present, else the key is appended at the end. -/
theorem keys_insertItem (gs : List BlGroup) (r : ManifestRecord) :
    (insertItem gs r).map (fun g => g.blNo) =
      if keyOf r ∈ gs.map (fun g => g.blNo) then gs.map (fun g => g.blNo)
      else gs.map (fun g => g.blNo) ++ [keyOf r] := by
  induction gs with
  | nil => simp [insertItem]
  | cons g gs ih =>
      by_cases hk : g.blNo = keyOf r
      · simp [insertItem, if_pos hk, addToGroup, ← hk]
      · simp only [insertItem, if_neg hk, List.map_cons, ih]
        have hne : keyOf r ≠ g.blNo := fun h => hk h.symm
        by_cases hmem : keyOf r ∈ gs.map (fun g => g.blNo)
        · simp [hmem, hne]
        · simp [hmem, hne]

/-- The grouping fold preserves distinctness of group keys. -/
theorem keys_nodup_foldl (rs : List ManifestRecord) :
    ∀ gs : List BlGroup, ((gs.map (fun g => g.blNo)).Nodup) →
      (((rs.foldl insertItem gs).map (fun g => g.blNo)).Nodup) := by
  induction rs with
  | nil =>
      intro gs h
      simpa using h
  | cons r rs ih =>
      intro gs h
      simp only [List.foldl_cons]
      apply ih
      rw [keys_insertItem]
      by_cases hmem : keyOf r ∈ gs.map (fun g => g.blNo)
      · simpa [hmem] using h
      · simp [hmem, List.nodup_append, h]

/-- The items recorded under key `k` after an insertion. -/
theorem groupItemsOf_insertItem (gs : List BlGroup) (r : ManifestRecord)
    (k : String) :
    groupItemsOf (insertItem gs r) k =
      groupItemsOf gs k ++ (if keyOf r = k then [mkItem r] else []) := by
  induction gs with
  | nil =>
      by_cases hk : keyOf r = k
      · simp [insertItem, groupItemsOf, findGroup, hk]
      · simp [insertItem, groupItemsOf, findGroup, hk]
  | cons g gs ih =>
      by_cases hgk : g.blNo = keyOf r
      · by_cases hk2 : g.blNo = k
        · have hrk : keyOf r = k := hgk ▸ hk2
          simp [insertItem, if_pos hgk, groupItemsOf, findGroup, addToGroup,
            List.find?_cons, hk2, hrk]
        · have hrk : keyOf r ≠ k := fun h => hk2 (hgk.trans h)
          simp [insertItem, if_pos hgk, groupItemsOf, findGroup, addToGroup,
            List.find?_cons, hk2, hrk]
      · by_cases hk2 : g.blNo = k
        · have hrk : keyOf r ≠ k := fun h => hgk (hk2.trans h.symm)
          simp only [insertItem, if_neg hgk, groupItemsOf, findGroup,
            List.find?_cons]
          have hbeq : (g.blNo == k) = true := by simpa using hk2
          rw [hbeq]
          simp [hrk]
        · simp only [insertItem, if_neg hgk, groupItemsOf, findGroup,
            List.find?_cons]
          have hbeq : (g.blNo == k) = false := by
            simpa using hk2
          rw [hbeq]
          exact ih

/-- After grouping, the items under key `k` are exactly the records with
key `k`, in input order. -/
theorem groupItemsOf_foldl (rs : List ManifestRecord) :
    ∀ (gs : List BlGroup) (k : String),
      groupItemsOf (rs.foldl insertItem gs) k =
        groupItemsOf gs k ++ (rs.filter (fun r => keyOf r == k)).map mkItem := by
  induction rs with
  | nil =>
      intro gs k
      simp
  | cons r rs ih =>
      intro gs k
      simp only [List.foldl_cons, List.filter_cons]
      rw [ih (insertItem gs r) k, groupItemsOf_insertItem]
      by_cases hk : keyOf r = k
      · simp [hk, List.append_assoc]
      · simp [hk]

/-- With distinct keys, looking up a member group's key finds that group. -/
theorem findGroup_eq_of_nodup (gs : List BlGroup)
    (h : (gs.map (fun g => g.blNo)).Nodup) (g : BlGroup) (hg : g ∈ gs) :
    findGroup gs g.blNo = some g := by
  induction gs with
  | nil => cases hg
  | cons g' gs ih =>
      simp only [List.map_cons, List.nodup_cons] at h
      obtain ⟨hnotin, hnd⟩ := h
      rcases List.mem_cons.mp hg with hEq | hmem
      · subst hEq
        simp [findGroup, List.find?_cons]
      · have hne : (g'.blNo == g.blNo) = false := by
          simp only [beq_eq_false_iff_ne, ne_eq]
          intro hEq
          exact hnotin (hEq ▸ List.mem_map.mpr ⟨g, hmem, rfl⟩)
        simp only [findGroup, List.find?_cons, hne]
        exact ih hnd hmem

/-! ### Optimal-Fit Solver claims -/

/-- C6 counterexample: with the measure `s ↦ 10·s` (text 10 px wide per
font-size unit) and target box `5 × 10000`, no admissible size fits, the
search never moves, and the returned font size `1` measures `10 px`, which
exceeds the margin `0.98 × 5 = 4.9`: the claimed width containment fails
as stated. -/
theorem C6_width_containment_counterexample :
    ¬ ((fun s : ℚ => 10 * s)
        ((calculateOptimalFontSize (fun s : ℚ => 10 * s) "a" 5 10000
          false).fontSize) ≤ 5 * (98 / 100)) := by
  have hno : ∀ s : ℚ, 1 ≤ s → ¬ (fun s : ℚ => 10 * s) s ≤ 5 * (98 / 100) := by
    intro s hs
    simp only
    intro hcon
    linarith
  have h1 : widthFitSize (fun s : ℚ => 10 * s) 5 = 1 := wfs_no_fit _ _ hno
  have htext : ("a" : String) ≠ "" := by decide
  simp only [calculateOptimalFontSize, if_neg htext, Bool.false_eq_true,
    reduceIte, h1]
  rw [min_eq_left (by norm_num)]
  norm_num

/-- C6 (amended): for a monotone measure and nonempty text, provided the
text fits the width margin at the minimum size `1`, the non-stretch fit's
returned font size measures within the 2% margin
(`measure(fontSize) ≤ 0.98 × targetWidth`), and the width-fit size is the
largest fitting size in `[1, 1000]` up to the terminal bracket width
`999 / 2^20`. -/
theorem C6_width_containment (measure : ℚ → ℚ) (text : String) (W H : ℚ)
    (hmono : Monotone measure) (htext : text ≠ "")
    (hbase : measure 1 ≤ W * (98 / 100)) :
    measure ((calculateOptimalFontSize measure text W H false).fontSize) ≤
        W * (98 / 100) ∧
    ∀ s : ℚ, 1 ≤ s → s ≤ 1000 → measure s ≤ W * (98 / 100) →
      s ≤ widthFitSize measure W + 999 / 2 ^ 20 := by
  constructor
  · have hfits : measure (widthFitSize measure W) ≤ W * (98 / 100) := by
      rcases wfs_fits_or_one measure W with h | h
      · exact h
      · rw [h]
        exact hbase
    simp only [calculateOptimalFontSize, if_neg htext, Bool.false_eq_true,
      reduceIte]
    exact le_trans (hmono (min_le_left _ _)) hfits
  · exact wfs_near_sup measure W hmono

/-- Witness for C6 (amended) at the measure `s ↦ s / 1000`, text `"a"`,
box `2 × 1000000`. -/
theorem C6_width_containment_witness :
    (Monotone (fun s : ℚ => s / 1000) ∧ ("a" : String) ≠ "" ∧
      (fun s : ℚ => s / 1000) 1 ≤ 2 * (98 / 100)) ∧
    ((fun s : ℚ => s / 1000)
        ((calculateOptimalFontSize (fun s : ℚ => s / 1000) "a" 2 1000000
          false).fontSize) ≤ 2 * (98 / 100) ∧
      ∀ s : ℚ, 1 ≤ s → s ≤ 1000 → (fun s : ℚ => s / 1000) s ≤ 2 * (98 / 100) →
        s ≤ widthFitSize (fun s : ℚ => s / 1000) 2 + 999 / 2 ^ 20) :=
  have hmono : Monotone (fun s : ℚ => s / 1000) := by
    intro a b hab
    dsimp only
    linarith
  ⟨⟨hmono, by decide, by norm_num⟩,
    C6_width_containment (fun s : ℚ => s / 1000) "a" 2 1000000 hmono
      (by decide) (by norm_num)⟩

/-- C7 counterexample: a non-stretch call on the empty string with target
height `1` short-circuits to the default font size `12`, which exceeds
`0.95 × 1`: the claimed height containment fails as stated for empty text. -/
theorem C7_height_containment_counterexample :
    (calculateOptimalFontSize (fun s : ℚ => s) "" 100 1 false).fontSize = 12 ∧
    ¬ ((calculateOptimalFontSize (fun s : ℚ => s) "" 100 1 false).fontSize ≤
        1 * (95 / 100)) := by
  constructor
  · rfl
  · simp only [calculateOptimalFontSize, if_pos rfl]
    norm_num

/-- C7 (amended): for nonempty text, every non-stretch fit returns a font
size of at most `0.95 × targetHeight` and unit stretch factors. -/
theorem C7_height_containment (measure : ℚ → ℚ) (text : String) (W H : ℚ)
    (htext : text ≠ "") :
    (calculateOptimalFontSize measure text W H false).fontSize ≤
        H * (95 / 100) ∧
    (calculateOptimalFontSize measure text W H false).scaleX = 1 ∧
    (calculateOptimalFontSize measure text W H false).scaleY = 1 := by
  simp only [calculateOptimalFontSize, if_neg htext, Bool.false_eq_true,
    reduceIte]
  exact ⟨min_le_right _ _, by trivial, by trivial⟩

/-- Witness for C7 (amended) at the identity measure, text `"a"`,
box `100 × 20`. -/
theorem C7_height_containment_witness :
    ("a" : String) ≠ "" ∧
    ((calculateOptimalFontSize (fun s : ℚ => s) "a" 100 20 false).fontSize ≤
        20 * (95 / 100) ∧
      (calculateOptimalFontSize (fun s : ℚ => s) "a" 100 20 false).scaleX = 1 ∧
      (calculateOptimalFontSize (fun s : ℚ => s) "a" 100 20 false).scaleY = 1) :=
  ⟨by decide, C7_height_containment (fun s : ℚ => s) "a" 100 20 (by decide)⟩

/-- C9 counterexample: a zero-height box with nonempty text does not
short-circuit to the fixed default: the solver still runs its search and
returns font size `0` (the height clamp of a zero height), not `12`. -/
theorem C9_degenerate_counterexample :
    (calculateOptimalFontSize (fun s : ℚ => s) "a" 100 0 false).fontSize = 0 ∧
    calculateOptimalFontSize (fun s : ℚ => s) "a" 100 0 false ≠ ⟨12, 1, 1⟩ := by
  have h1 : (1 : ℚ) ≤ widthFitSize (fun s : ℚ => s) 100 := wfs_ge_one _ _
  have htext : ("a" : String) ≠ "" := by decide
  have hfs : (calculateOptimalFontSize (fun s : ℚ => s) "a" 100 0
      false).fontSize = 0 := by
    simp only [calculateOptimalFontSize, if_neg htext, Bool.false_eq_true,
      reduceIte]
    rw [min_eq_right (by linarith)]
    norm_num
  refine ⟨hfs, fun hEq => ?_⟩
  rw [hEq] at hfs
  norm_num at hfs

/-- C9 (amended): only zero-length text short-circuits to the fixed default
`(fontSize 12, scaleX 1, scaleY 1)`.  A degenerate box with nonempty text
still runs the search; no division by zero can occur because the width-fit
size (the stretch divisor) is at least `1`, and a zero-height non-stretch
box yields font size `0` rather than the default. -/
theorem C9_degenerate_defaults (measure : ℚ → ℚ) (W H : ℚ)
    (stretchHeight : Bool) (text : String) (htext : text ≠ "") :
    calculateOptimalFontSize measure "" W H stretchHeight = ⟨12, 1, 1⟩ ∧
    1 ≤ widthFitSize measure W ∧
    (calculateOptimalFontSize measure text W 0 false).fontSize = 0 := by
  refine ⟨rfl, wfs_ge_one _ _, ?_⟩
  have h1 : (1 : ℚ) ≤ widthFitSize measure W := wfs_ge_one _ _
  simp only [calculateOptimalFontSize, if_neg htext, Bool.false_eq_true,
    reduceIte]
  rw [min_eq_right (by linarith)]
  norm_num

/-- Witness for C9 (amended) at the identity measure, `W = 100`, `H = 50`,
text `"a"`. -/
theorem C9_degenerate_defaults_witness :
    ("a" : String) ≠ "" ∧
    (calculateOptimalFontSize (fun s : ℚ => s) "" 100 50 false = ⟨12, 1, 1⟩ ∧
      1 ≤ widthFitSize (fun s : ℚ => s) 100 ∧
      (calculateOptimalFontSize (fun s : ℚ => s) "a" 100 0 false).fontSize = 0) :=
  ⟨by decide, C9_degenerate_defaults (fun s : ℚ => s) 100 50 false "a" (by decide)⟩

/-! ### Page-Scale Calculator claims -/

/-- C3: for every positive canvas dimensions (including the degenerate 1×1
and 100000×100000) and every target mode, with the default upscale factor,
both axes of the Page-Scale Calculator's result lie within `[0.3, 6.0]`. -/
theorem C3_scale_clamp (w h : ℚ) (hw : 0 < w) (hh : 0 < h) (mode : TargetMode)
    (msw msh : Option ℚ) :
    (3 / 10 ≤ (computeScaleForA4 ⟨w, h, mode, msw, msh, none⟩).scaleX ∧
      (computeScaleForA4 ⟨w, h, mode, msw, msh, none⟩).scaleX ≤ 6) ∧
    (3 / 10 ≤ (computeScaleForA4 ⟨w, h, mode, msw, msh, none⟩).scaleY ∧
      (computeScaleForA4 ⟨w, h, mode, msw, msh, none⟩).scaleY ≤ 6) := by
  cases mode <;>
    simp only [computeScaleForA4, Option.getD] <;>
    simp only [reduceCtorEq, or_self, or_false, false_or, if_true, if_false,
      ite_true, ite_false, reduceIte] <;>
    exact ⟨clamp_mem _ _ (by norm_num), clamp_mem _ _ (by norm_num)⟩

/-- Witness for C3 at the canvas sizes named by the claim. -/
theorem C3_scale_clamp_witness :
    (0 < (1 : ℚ) ∧ 0 < (100000 : ℚ)) ∧
    (3 / 10 ≤ (computeScaleForA4 ⟨1, 1, TargetMode.print, none, none, none⟩).scaleX ∧
      (computeScaleForA4 ⟨1, 1, TargetMode.print, none, none, none⟩).scaleX ≤ 6) ∧
    (3 / 10 ≤ (computeScaleForA4 ⟨100000, 100000, TargetMode.preview, none, none,
        none⟩).scaleY ∧
      (computeScaleForA4 ⟨100000, 100000, TargetMode.preview, none, none,
        none⟩).scaleY ≤ 6) :=
  ⟨⟨by norm_num, by norm_num⟩,
    (C3_scale_clamp 1 1 (by norm_num) (by norm_num) TargetMode.print none none).1,
    (C3_scale_clamp 100000 100000 (by norm_num) (by norm_num) TargetMode.preview
      none none).2⟩

/-- C4: in the screen modes (preview, editor), for positive canvas
dimensions and positive supplied screen limits, the calculator returns one
uniform scale on both axes, equal to
`min(pageWidth/canvasWidth, pageHeight/canvasHeight)` further bounded by the
supplied `maxScreenWidth/maxScreenHeight` ratios, capped at `1.0` and
floored at `0.3`. -/
theorem C4_screen_uniform (w h : ℚ) (hw : 0 < w) (hh : 0 < h)
    (mode : TargetMode)
    (hmode : mode = TargetMode.preview ∨ mode = TargetMode.editor)
    (msw msh : Option ℚ) (hmsw : ∀ m ∈ msw, 0 < m) (hmsh : ∀ m ∈ msh, 0 < m) :
    (computeScaleForA4 ⟨w, h, mode, msw, msh, none⟩).scaleX =
        (computeScaleForA4 ⟨w, h, mode, msw, msh, none⟩).scaleY ∧
    (computeScaleForA4 ⟨w, h, mode, msw, msh, none⟩).scaleX =
      max (min (screenBound (screenBound
          (min (A4_USABLE_WIDTH / w) (A4_USABLE_HEIGHT / h)) msw w) msh h) 1)
        (3 / 10) := by
  have hb : ∀ (s : ℚ) (o : Option ℚ) (d : ℚ), (∀ m ∈ o, 0 < m) →
      (if truthy o then min s (o.getD 0 / d) else s) = screenBound s o d := by
    intro s o d ho
    cases o with
    | none => simp [truthy, screenBound]
    | some m =>
        have hm : 0 < m := ho m rfl
        simp [truthy, screenBound, ne_of_gt hm]
  rcases hmode with hm | hm <;> subst hm <;>
    simp only [computeScaleForA4, reduceCtorEq, or_self, or_false, false_or,
      or_true, reduceIte] <;>
    exact ⟨trivial, by rw [hb _ _ _ hmsw, hb _ _ _ hmsh]⟩

/-- Witness for C4: preview mode, canvas 500×500, screen width limit 300. -/
theorem C4_screen_uniform_witness :
    (0 < (500 : ℚ) ∧ (∀ m ∈ (some (300 : ℚ)), 0 < m)) ∧
    ((computeScaleForA4 ⟨500, 500, TargetMode.preview, some 300, none,
          none⟩).scaleX =
        (computeScaleForA4 ⟨500, 500, TargetMode.preview, some 300, none,
          none⟩).scaleY ∧
      (computeScaleForA4 ⟨500, 500, TargetMode.preview, some 300, none,
          none⟩).scaleX =
        max (min (screenBound (screenBound
            (min (A4_USABLE_WIDTH / 500) (A4_USABLE_HEIGHT / 500))
            (some 300) 500) none 500) 1) (3 / 10)) :=
  ⟨⟨by norm_num,
    (by
      intro m hm
      simp only [Option.mem_def, Option.some.injEq] at hm
      rw [← hm]
      norm_num)⟩,
    C4_screen_uniform 500 500 (by norm_num) (by norm_num) TargetMode.preview
      (Or.inl rfl) (some 300) none
      (by
        intro m hm
        simp only [Option.mem_def, Option.some.injEq] at hm
        rw [← hm]
        norm_num)
      (by
        intro m hm
        simp only [Option.mem_def, reduceCtorEq] at hm)⟩

/-- C5 (divergence witness): the inline scale computation of the standalone
HTML-export path, which hard-codes `793.7` and `1122.5`, does not agree with
the shared Page-Scale Calculator in document mode on the canvas 1000×1000:
the former yields `scaleX = 0.7937`, the latter
`scaleX = (210·96/25.4)/1000 = 1008/1270 ≈ 0.79370079`. -/
theorem C5_html_scale_divergence :
    generateManifestHTMLScale 1000 1000 ≠
      computeScaleForA4 ⟨1000, 1000, TargetMode.html, none, none, none⟩ := by
  intro hEq
  have hx := congrArg ScaleResult.scaleX hEq
  simp only [generateManifestHTMLScale, computeScaleForA4, A4_USABLE_WIDTH,
    A4_USABLE_HEIGHT, A4_WIDTH_PX, A4_HEIGHT_PX, MARGIN_LR_PX, MARGIN_TB_PX,
    reduceCtorEq, or_self, or_false, false_or, or_true, reduceIte,
    Option.getD] at hx
  norm_num [min_def, max_def] at hx

/-! ### Batch Paginator claims -/

/-- Page count of one group's emitted pages. -/
theorem length_groupPages (g : BlGroup) :
    (groupPages g).length = 1 + groupCopies g := by
  simp only [groupPages, List.length_cons, List.length_flatMap,
    Function.comp_def, List.length_replicate, groupCopies]
  rw [show (fun x : BlItem => copiesNat (jsMul x.pltQty x.copyCount)) =
    itemCopies from rfl]
  omega

/-- Page count of the emitted document. -/
theorem length_pagesOf (rs : List ManifestRecord) :
    (pagesOf rs).length =
      2 + (groupByBl rs).length + sumCopies (groupByBl rs) := by
  have h1 : ((groupByBl rs).map (List.length ∘ groupPages)).sum =
      (groupByBl rs).length + sumCopies (groupByBl rs) := by
    have h2 : (groupByBl rs).map (List.length ∘ groupPages) =
        (groupByBl rs).map (fun g => 1 + groupCopies g) :=
      List.map_congr_left (fun g _ => by
        simp only [Function.comp_apply, length_groupPages])
    rw [h2, sum_map_one_add]
    rfl
  simp only [pagesOf, List.length_cons, List.length_append,
    List.length_flatMap, h1, List.length_nil]
  omega

/-- C10: `groupByBl` emits the groups sorted in ascending key order (string
comparison) with pairwise-distinct keys — not in order of first appearance —
while each group's items are exactly the input records carrying that key, in
the input's relative order; a record whose `blNo` is absent (empty, JS-falsy)
is keyed `"UNKNOWN"`. -/
theorem C10_group_order (rs : List ManifestRecord) :
    List.Pairwise (fun a b : BlGroup => strLe a.blNo b.blNo = true)
        (groupByBl rs) ∧
    ((groupByBl rs).map (fun g => g.blNo)).Nodup ∧
    (∀ g ∈ groupByBl rs, g.items.map (fun it => it.data) =
      rs.filter (fun r => keyOf r == g.blNo)) ∧
    (∀ r : ManifestRecord,
      keyOf r = if r.blNo = "" then "UNKNOWN" else r.blNo) := by
  have hnd : ((groupByBlUnsorted rs).map (fun g => g.blNo)).Nodup :=
    keys_nodup_foldl rs [] (by simp)
  have hperm : (groupByBl rs).Perm (groupByBlUnsorted rs) :=
    List.perm_insertionSort blGroupLe (groupByBlUnsorted rs)
  refine ⟨?_, ?_, ?_, fun r => rfl⟩
  · exact List.sorted_insertionSort blGroupLe (groupByBlUnsorted rs)
  · exact (hperm.map (fun g => g.blNo)).nodup_iff.mpr hnd
  · intro g hg
    have hgu : g ∈ groupByBlUnsorted rs := hperm.mem_iff.mp hg
    have hfind : findGroup (groupByBlUnsorted rs) g.blNo = some g :=
      findGroup_eq_of_nodup (groupByBlUnsorted rs) hnd g hgu
    have hitems : groupItemsOf (groupByBlUnsorted rs) g.blNo = g.items := by
      simp [groupItemsOf, hfind]
    have h2 := groupItemsOf_foldl rs [] g.blNo
    simp only [groupByBlUnsorted] at hitems
    rw [hitems] at h2
    have h0 : groupItemsOf [] g.blNo = [] := rfl
    rw [h0, List.nil_append] at h2
    rw [h2, List.map_map]
    have hcomp : ((fun it : BlItem => it.data) ∘ mkItem) = id := by
      funext r
      rfl
    rw [hcomp, List.map_id]

/-- C2 counterexample: a record whose unit count is the unparseable
`"abc"` (with multiplier `"2"`) gets copy count `NaN` (the JS
`parseInt("abc", 10)` is `NaN`, since `"abc" || "0"` is `"abc"`), not the
claimed default `0`. -/
theorem C2_copy_count_counterexample :
    copyCountOf ⟨"BL1", "I1", "abc", "2"⟩ = none ∧
    copyCountOf ⟨"BL1", "I1", "abc", "2"⟩ ≠ some 0 :=
  ⟨rfl, by decide⟩

/-- C2 (amended): the copy-count derivation is total (no exception path in
the model); an absent (empty) unit-count string defaults to `"0"` (parsing
to `0`) and an absent multiplier to `"1"` (parsing to `1`); but a non-empty
unparseable quantity parses to `NaN`, which propagates through the product:
unit count `"abc"` with multiplier `"2"` yields `NaN`, not `0`. -/
theorem C2_copy_count_defaults (blNo itemNo plt maesu : String) :
    pltQtyOf ⟨blNo, itemNo, "", maesu⟩ = some 0 ∧
    copyCntOf ⟨blNo, itemNo, plt, ""⟩ = some 1 ∧
    copyCountOf ⟨blNo, itemNo, "abc", "2"⟩ = none :=
  ⟨rfl, rfl, rfl⟩

/-- C1: when every record's unit count and multiplier parse (and the products
are nonnegative), the single declared total page count equals
`2 + groupCount + Σ copyCount` — one start-summary page, one separator page
per group, `copyCount` manifest pages per item and one end-summary page —
and the emitted page sequence has exactly that length. -/
theorem C1_total_pages (rs : List ManifestRecord)
    (hs : ∀ r ∈ rs, (copyCountOf r).isSome)
    (hn : ∀ r ∈ rs, 0 ≤ (copyCountOf r).getD 0) :
    totalPagesOf rs =
      some (2 + ((groupByBl rs).length : ℤ) +
        (rs.map (fun r => (copyCountOf r).getD 0)).sum) ∧
    ((pagesOf rs).length : ℤ) =
      2 + ((groupByBl rs).length : ℤ) +
        (rs.map (fun r => (copyCountOf r).getD 0)).sum := by
  have hperm : (groupByBl rs).Perm (groupByBlUnsorted rs) :=
    List.perm_insertionSort blGroupLe (groupByBlUnsorted rs)
  have hsumP : sumGroupPages (groupByBl rs) = jsSumCopy rs := by
    have h1 : sumGroupPages (groupByBl rs) =
        sumGroupPages (groupByBlUnsorted rs) := by
      unfold sumGroupPages
      exact foldl_jsAdd_perm (fun g : BlGroup => g.totalPages) hperm
    rw [h1]
    have h2 := sumGroupPages_foldl rs []
    simp only [groupByBlUnsorted]
    rw [h2]
    simp [sumGroupPages, jsAdd_zero_left]
  have hjs : jsSumCopy rs =
      some ((rs.map (fun r => (copyCountOf r).getD 0)).sum) :=
    jsSumCopy_eq_sum rs hs
  have hcopies : sumCopies (groupByBl rs) =
      (rs.map (fun r => copiesNat (copyCountOf r))).sum := by
    have h1 : sumCopies (groupByBl rs) = sumCopies (groupByBlUnsorted rs) := by
      unfold sumCopies
      exact (hperm.map groupCopies).sum_eq
    rw [h1]
    have h2 := sumCopies_foldl rs []
    simp only [groupByBlUnsorted]
    rw [h2]
    simp [sumCopies]
  have hcast : ((rs.map (fun r => copiesNat (copyCountOf r))).sum : ℤ) =
      (rs.map (fun r => (copyCountOf r).getD 0)).sum := by
    rw [Nat.cast_list_sum, List.map_map]
    congr 1
    apply List.map_congr_left
    intro r hr
    obtain ⟨v, hv⟩ := Option.isSome_iff_exists.mp (hs r hr)
    have hnn := hn r hr
    rw [hv] at hnn
    simp only [Option.getD_some] at hnn
    simp only [Function.comp_apply, hv, copiesNat, Option.getD_some]
    exact Int.toNat_of_nonneg hnn
  constructor
  · simp only [totalPagesOf]
    rw [hsumP, hjs]
    simp only [jsAdd, Option.some.injEq]
    ring
  · rw [length_pagesOf, hcopies, Nat.cast_add, Nat.cast_add, hcast]
    norm_num

/-- Witness for C1 on the spec's example batch: group A with one item of
copy count 6, group B with two items of copy counts 2 and 3, so
`totalPages = 2 + 2 + (6 + 2 + 3) = 15`. -/
theorem C1_total_pages_witness :
    ((∀ r ∈ [(⟨"A", "I1", "6", "1"⟩ : ManifestRecord),
        ⟨"B", "I2", "2", "1"⟩, ⟨"B", "I3", "3", "1"⟩],
        (copyCountOf r).isSome) ∧
      (∀ r ∈ [(⟨"A", "I1", "6", "1"⟩ : ManifestRecord),
        ⟨"B", "I2", "2", "1"⟩, ⟨"B", "I3", "3", "1"⟩],
        0 ≤ (copyCountOf r).getD 0)) ∧
    (totalPagesOf [(⟨"A", "I1", "6", "1"⟩ : ManifestRecord),
        ⟨"B", "I2", "2", "1"⟩, ⟨"B", "I3", "3", "1"⟩] =
      some (2 + ((groupByBl [(⟨"A", "I1", "6", "1"⟩ : ManifestRecord),
          ⟨"B", "I2", "2", "1"⟩, ⟨"B", "I3", "3", "1"⟩]).length : ℤ) +
        ([(⟨"A", "I1", "6", "1"⟩ : ManifestRecord),
          ⟨"B", "I2", "2", "1"⟩, ⟨"B", "I3", "3", "1"⟩].map
          (fun r => (copyCountOf r).getD 0)).sum) ∧
      (((pagesOf [(⟨"A", "I1", "6", "1"⟩ : ManifestRecord),
          ⟨"B", "I2", "2", "1"⟩, ⟨"B", "I3", "3", "1"⟩]).length : ℤ) =
        2 + ((groupByBl [(⟨"A", "I1", "6", "1"⟩ : ManifestRecord),
            ⟨"B", "I2", "2", "1"⟩, ⟨"B", "I3", "3", "1"⟩]).length : ℤ) +
          ([(⟨"A", "I1", "6", "1"⟩ : ManifestRecord),
            ⟨"B", "I2", "2", "1"⟩, ⟨"B", "I3", "3", "1"⟩].map
            (fun r => (copyCountOf r).getD 0)).sum)) ∧
    totalPagesOf [(⟨"A", "I1", "6", "1"⟩ : ManifestRecord),
        ⟨"B", "I2", "2", "1"⟩, ⟨"B", "I3", "3", "1"⟩] = some 15 :=
  ⟨⟨by decide, by decide⟩,
    C1_total_pages _ (by decide) (by decide), by decide⟩

/-! ### Field Overlay Renderer claims -/

/-- C8 counterexample: a field with `maxLines = 2`, `overflow = ellipsis`
and `wordWrap` off resolves, in `PresentationalManifest`, to a style that
still carries the ellipsis branch's `white-space: nowrap` and
`text-overflow: ellipsis`; despite the line-clamp value 2 the text cannot
wrap, so this call site keeps single-line truncation, refuting the claimed
precedence at every call site. -/
theorem C8_ellipsis_precedence_counterexample :
    (presentationalStyle ⟨"ellipsis", false, some 2, false, 30⟩).whiteSpace =
        some "nowrap" ∧
    (presentationalStyle ⟨"ellipsis", false, some 2, false, 30⟩).textOverflow =
        some "ellipsis" ∧
    (presentationalStyle ⟨"ellipsis", false, some 2, false, 30⟩).lineClamp =
        some 2 := by
  refine ⟨?_, ?_, ?_⟩ <;> rfl

/-- C8 (amended): for every field with `maxLines = 2` and
`overflow = ellipsis`, all three call sites resolve the line-clamp value 2;
in `ManifestFieldRenderer` the `maxLines` branch fully overrides the other
overflow settings (white-space normal, no text-overflow), but in
`PresentationalManifest` and the batch HTML renderer the ellipsis branch's
`white-space: nowrap` is not overridden when `wordWrap` is off, leaving
single-line truncation there. -/
theorem C8_ellipsis_precedence (f : TemplateField) (fontSize : ℚ)
    (hml : f.maxLines = some 2) (hov : f.overflow = "ellipsis") :
    (rendererStyle f fontSize).lineClamp = some 2 ∧
    (presentationalStyle f).lineClamp = some 2 ∧
    (batchHtmlStyle f).lineClamp = some 2 ∧
    (rendererStyle f fontSize).whiteSpace = some "normal" ∧
    (rendererStyle f fontSize).textOverflow = none ∧
    (f.wordWrap = false →
      (presentationalStyle f).whiteSpace = some "nowrap" ∧
      (batchHtmlStyle f).whiteSpace = some "nowrap") := by
  have hact : maxLinesActive f.maxLines = true := by
    simp [hml, maxLinesActive]
  cases hw : f.wordWrap <;> cases hst : f.stretchHeight <;>
    simp [rendererStyle, presentationalStyle, batchHtmlStyle, hact, hml, hov,
      hw, hst, defaultOverflowStyle, maxLinesActive]

/-- Witness for C8 (amended) at a concrete field. -/
theorem C8_ellipsis_precedence_witness :
    ((⟨"ellipsis", false, some 2, false, 30⟩ : TemplateField).maxLines =
        some 2 ∧
      (⟨"ellipsis", false, some 2, false, 30⟩ : TemplateField).overflow =
        "ellipsis") ∧
    ((rendererStyle ⟨"ellipsis", false, some 2, false, 30⟩ 10).lineClamp =
        some 2 ∧
      (presentationalStyle ⟨"ellipsis", false, some 2, false, 30⟩).lineClamp =
        some 2 ∧
      (batchHtmlStyle ⟨"ellipsis", false, some 2, false, 30⟩).lineClamp =
        some 2 ∧
      (rendererStyle ⟨"ellipsis", false, some 2, false, 30⟩ 10).whiteSpace =
        some "normal" ∧
      (rendererStyle ⟨"ellipsis", false, some 2, false, 30⟩ 10).textOverflow =
        none ∧
      ((⟨"ellipsis", false, some 2, false, 30⟩ : TemplateField).wordWrap =
          false →
        (presentationalStyle
            ⟨"ellipsis", false, some 2, false, 30⟩).whiteSpace =
          some "nowrap" ∧
        (batchHtmlStyle ⟨"ellipsis", false, some 2, false, 30⟩).whiteSpace =
          some "nowrap")) :=
  ⟨⟨rfl, rfl⟩,
    C8_ellipsis_precedence ⟨"ellipsis", false, some 2, false, 30⟩ 10 rfl rfl⟩

end Devanning
